import Mathlib

set_option maxRecDepth 8000

/-!
Verification development for the doxstorr embedded document database.

Each Python component under `src/` that the claims touch is shallowly
embedded below: pure functions become Lean functions, stateful methods
become explicit state passing, `async` methods that can raise become
`Except`-valued functions, and the non-reentrant `asyncio.Lock` of the
block-pointer table is modelled by an explicit `locked` flag (awaiting a
lock the same task already holds never completes; we surface that as an
error value `"deadlock"`).

Clock values (`int(time.time())`) are passed in explicitly as `now : Nat`.
Background tasks run only at suspension points between the embedded
operations, exactly as in the source: the compression worker is an
explicit transition (`workerStep`) that can be interleaved with the
public operations, and the async index worker's queue is carried as
data.
-/

namespace Doxstorr

/-- Document field values: the JSON-ish scalars the claims need. -/
inductive Val where
  | vInt  (n : Int)
  | vStr  (s : String)
  | vBool (b : Bool)
  deriving DecidableEq

/-- A document is a Python dict: an insertion-ordered association list
from field names to values (keys unique in all reachable states). -/
abbrev Doc := List (String × Val)

/-- First-match association-list lookup (Python `d.get(k)` / `d[k]`). -/
def getField : Doc → String → Option Val
  | [], _ => none
  | (k', v) :: rest, k => if k' = k then some v else getField rest k

/-- Python `d[k] = v`: replace the value in place if the key exists,
otherwise append (dict insertion order). -/
def setField : Doc → String → Val → Doc
  | [], k, v => [(k, v)]
  | (k', v') :: rest, k, v =>
      if k' = k then (k', v) :: rest else (k', v') :: setField rest k v

/-- Python `d.update(u)`: assign each pair of `u` in order. -/
def dictUpdate : Doc → Doc → Doc
  | d, [] => d
  | d, (k, v) :: rest => dictUpdate (setField d k v) rest

/-- Keys of an update dict. -/
def keysOf (u : Doc) : List String := u.map Prod.fst

end Doxstorr

namespace Doxstorr.LRUCache

/-- Embedding of `src/lru_cache.py`: an `OrderedDict` of bounded capacity,
kept as a list in recency order, least-recently-used first (Python's
`move_to_end` moves to the back, `popitem(last=False)` pops the front). -/
structure Cache where
  capacity : Nat
  items : List (Nat × Doxstorr.Doc)
  deriving DecidableEq

/-- Association lookup in the cache list. -/
def lookup : List (Nat × Doxstorr.Doc) → Nat → Option Doxstorr.Doc
  | [], _ => none
  | (k', v) :: rest, k => if k' = k then some v else lookup rest k

/-- Remove a key from the cache list. -/
def eraseKey (l : List (Nat × Doxstorr.Doc)) (k : Nat) :
    List (Nat × Doxstorr.Doc) :=
  l.filter (fun p => p.1 ≠ k)

/-- `LRUCache.get`: on a hit, move the key to the most-recent end and
return its value; on a miss return `none` and leave the cache unchanged. -/
def get (c : Cache) (k : Nat) : Option Doxstorr.Doc × Cache :=
  match lookup c.items k with
  | none => (none, c)
  | some v => (some v, { c with items := eraseKey c.items k ++ [(k, v)] })

/-- `LRUCache.put`: upsert at the most-recent end; if the size now exceeds
the capacity, evict the least-recently-used entry (the front). -/
def put (c : Cache) (k : Nat) (v : Doxstorr.Doc) : Cache :=
  let items' := eraseKey c.items k ++ [(k, v)]
  if c.capacity < items'.length then
    { c with items := items'.drop 1 }
  else
    { c with items := items' }

/-- `LRUCache.invalidate`: remove the key if present. -/
def invalidate (c : Cache) (k : Nat) : Cache :=
  { c with items := eraseKey c.items k }

end Doxstorr.LRUCache

namespace Doxstorr.JSONFilestore

open Doxstorr

/-- Error categories of `src/filestore_exceptions.py` that the embedded
operations can surface (messages elided; the class is what matters). -/
inductive Err where
  | documentNotFound
  | documentAlreadyExists
  | storage
  deriving DecidableEq

/-- First-match lookup in the `id -> document` map. -/
def dlookup : List (Nat × Doc) → Nat → Option Doc
  | [], _ => none
  | (k', v) :: rest, k => if k' = k then some v else dlookup rest k

/-- Python `data[k] = v` on the document map. -/
def dset : List (Nat × Doc) → Nat → Doc → List (Nat × Doc)
  | [], k, v => [(k, v)]
  | (k', v') :: rest, k, v =>
      if k' = k then (k', v) :: rest else (k', v') :: dset rest k v

/-- Python `del data[k]` (keys are unique, so filtering is exact). -/
def derase (l : List (Nat × Doc)) (k : Nat) : List (Nat × Doc) :=
  l.filter (fun p => p.1 ≠ k)

/-- State of `src/json_filestore.py`'s `JSONFilestore`: the in-memory
document map, the LRU cache, the id counter and the queue consumed by the
background compression worker (drained one item per `workerStep`). -/
structure FS where
  data : List (Nat × Doc)
  cache : LRUCache.Cache
  nextId : Nat
  compQueue : List (Nat × Doc)
  deriving DecidableEq

/-- Serialized size stand-in for `len(json.dumps(document))`: a concrete
structural size, used only for the 4 KiB compression-queue threshold,
which none of the claims below depends on. -/
def docSize (d : Doc) : Nat :=
  d.foldl (fun acc kv =>
    acc + kv.1.length + 6 +
      (match kv.2 with
       | .vStr s => s.length + 2
       | .vInt _ => 12
       | .vBool _ => 5)) 2

/-- `JSONFilestore._create_with_id`: stamp `id`, `created_at`,
`updated_at`, store, cache, and queue for compression when large. -/
def createWithIdCore (fs : FS) (docId : Nat) (document : Doc) (now : Nat) :
    Nat × FS :=
  let doc' := setField (setField (setField document "id" (.vInt docId))
      "created_at" (.vInt now)) "updated_at" (.vInt now)
  let fs' : FS :=
    { fs with
      data := dset fs.data docId doc'
      cache := LRUCache.put fs.cache docId doc'
      compQueue :=
        if 4 * 1024 < docSize doc' then fs.compQueue ++ [(docId, doc')]
        else fs.compQueue }
  (docId, fs')

/-- `JSONFilestore.create`: assign `next_id` and create. -/
def create (fs : FS) (document : Doc) (now : Nat) : Nat × FS :=
  let docId := fs.nextId
  createWithIdCore { fs with nextId := fs.nextId + 1 } docId document now

/-- `JSONFilestore.create_with_id`: reject an existing id, bump `next_id`
past the requested id, and create. -/
def createWithId (fs : FS) (docId : Nat) (document : Doc) (now : Nat) :
    Except Err Nat × FS :=
  if (dlookup fs.data docId).isSome then
    (.error .documentAlreadyExists, fs)
  else
    let fs₁ := if fs.nextId ≤ docId then { fs with nextId := docId + 1 } else fs
    let (i, fs₂) := createWithIdCore fs₁ docId document now
    (.ok i, fs₂)

/-- Truthiness of `document.get('compressed')` in `read`. -/
def isCompressed (d : Doc) : Bool :=
  match getField d "compressed" with
  | some (.vBool b) => b
  | _ => false

/-- `JSONFilestore.read`: serve from the cache when possible; otherwise
consult the map, raise *not-found* when absent, and cache the result.
On a document the compression worker marked `compressed`, the source
decompresses the `data` field in place and clears the flag; matching the
worker's value-opaque compression (see `workerStep`), decompression is
the identity on the stored value and only the flag is cleared. -/
def read (fs : FS) (docId : Nat) : Except Err Doc × FS :=
  match LRUCache.get fs.cache docId with
  | (some document, cache') => (.ok document, { fs with cache := cache' })
  | (none, cache₀) =>
    match dlookup fs.data docId with
    | none => (.error .documentNotFound, { fs with cache := cache₀ })
    | some document =>
      let document :=
        if isCompressed document then setField document "compressed" (.vBool false)
        else document
      (.ok document, { fs with cache := LRUCache.put cache₀ docId document })

/-- `JSONFilestore.update`: raise *not-found* when absent; otherwise merge
the update dict into the stored document, stamp `updated_at` with the
current clock, refresh the cache and maybe queue compression. -/
def update (fs : FS) (docId : Nat) (updates : Doc) (now : Nat) :
    Except Err Bool × FS :=
  match dlookup fs.data docId with
  | none => (.error .documentNotFound, fs)
  | some document =>
    let doc' := setField (dictUpdate document updates) "updated_at" (.vInt now)
    let fs' : FS :=
      { fs with
        data := dset fs.data docId doc'
        cache := LRUCache.put fs.cache docId doc'
        compQueue :=
          if 4 * 1024 < docSize doc' then fs.compQueue ++ [(docId, doc')]
          else fs.compQueue }
    (.ok true, fs')

/-- `JSONFilestore.delete`: raise *not-found* when absent; otherwise drop
the document from the map and invalidate its cache entry. -/
def delete (fs : FS) (docId : Nat) : Except Err Bool × FS :=
  match dlookup fs.data docId with
  | none => (.error .documentNotFound, fs)
  | some _ =>
    (.ok true,
     { fs with
       data := derase fs.data docId
       cache := LRUCache.invalidate fs.cache docId })

end Doxstorr.JSONFilestore

namespace Doxstorr.BPlusTree

/-- Embedding of `src/b_plus_tree.py`'s `BPlusNode`. In the source, leaf
`keys` holds `(key, value)` pairs and `_split_child` promotes the whole
median *pair* into the parent's `keys`, so internal `keys` also holds
pairs; the node type therefore carries `List (Nat × Nat)` uniformly.
`next` is the leaf forward pointer (copied, not aliased: every state the
theorems evaluate is reached before any aliasing could be observed). -/
inductive BNode where
  | node (leaf : Bool) (keys : List (Nat × Nat)) (children : List BNode)
         (nxt : Option BNode)

instance : Inhabited BNode := ⟨.node true [] [] none⟩

/-- The `keys` field. -/
def nodeKeys : BNode → List (Nat × Nat)
  | .node _ ks _ _ => ks

/-- The `children` field. -/
def nodeChildren : BNode → List BNode
  | .node _ _ cs _ => cs

/-- Whether the node is a leaf. -/
def nodeLeaf : BNode → Bool
  | .node l _ _ _ => l

/-- The leaf insertion loop of `_insert_non_full`: shift entries right
while `key < keys[i][0]` and place the new pair after the last entry
whose key is `≤ key`. -/
def pyLeafInsert (keys : List (Nat × Nat)) (p : Nat × Nat) :
    List (Nat × Nat) :=
  let shifted := (keys.reverse.takeWhile (fun q => p.1 < q.1)).length
  let pos := keys.length - shifted
  keys.take pos ++ [p] ++ keys.drop pos

/-- `BPlusTree._split_child(parent, index)`: promote `child.keys[order-1]`
into the parent, give the right sibling `keys[order:]` and (for internal
nodes) `children[order:]`, keep `keys[:order-1]` on the left, and for leaf
splits link the leaf chain through the new right leaf. The promoted pair
is dropped from both leaves, exactly as in the source. -/
def splitChild (order : Nat) (parent : BNode) (index : Nat) : BNode :=
  match parent with
  | .node pl pkeys pchildren pnxt =>
    let child := pchildren.getD index default
    let promoted := (nodeKeys child).getD (order - 1) (0, 0)
    let rightKeys := (nodeKeys child).drop order
    let leftKeys := (nodeKeys child).take (order - 1)
    let (child', newChild) :=
      if nodeLeaf child then
        let newChild := BNode.node true rightKeys []
          (match child with | .node _ _ _ nx => nx)
        (BNode.node true leftKeys (nodeChildren child) (some newChild), newChild)
      else
        (BNode.node false leftKeys ((nodeChildren child).take order)
           (match child with | .node _ _ _ nx => nx),
         BNode.node false rightKeys ((nodeChildren child).drop order) none)
    BNode.node pl (pkeys.insertIdx index promoted)
      (((pchildren.set index child').insertIdx (index + 1) newChild)) pnxt

/-- `BPlusTree._insert_non_full`, fuel-bounded. On a non-leaf node with a
non-empty `keys` list the source evaluates `key < node.keys[i]`, a Python
comparison of an `int` against the promoted `(key, value)` tuple, which
raises `TypeError`; with empty `keys` the loop is skipped and the source
descends into `children[0]`, splitting it first when full (after which
`key > node.keys[i]` again compares an int with a tuple). -/
def insertNonFull : Nat → Nat → BNode → Nat → Nat → Except String BNode
  | 0, _, _, _, _ => .error "fuel exhausted"
  | _ + 1, _, .node true keys ch nxt, k, v =>
      .ok (.node true (pyLeafInsert keys (k, v)) ch nxt)
  | fuel + 1, order, .node false keys ch nxt, k, v =>
      match keys with
      | _ :: _ => .error "TypeError"
      | [] =>
        match ch with
        | [] => .error "IndexError"
        | child :: chRest =>
          if (nodeKeys child).length = 2 * order - 1 then
            .error "TypeError"
          else
            match insertNonFull fuel order child k v with
            | .ok child' => .ok (.node false keys (child' :: chRest) nxt)
            | .error e => .error e

/-- `BPlusTree.insert`: when the root is full, grow a new root, split the
old root beneath it, and continue inserting from the new root. -/
def insert (fuel order : Nat) (t : BNode) (k v : Nat) :
    Except String BNode :=
  if (nodeKeys t).length = 2 * order - 1 then
    let newRoot := splitChild order (BNode.node false [] [t] none) 0
    insertNonFull fuel order newRoot k v
  else
    insertNonFull fuel order t k v

/-- A fresh tree: a single empty leaf root. -/
def emptyTree : BNode := .node true [] [] none

/-- Insert a list of `(key, value)` pairs in order into a fresh tree of
the given order, propagating the first raised error. -/
def insertAll (order : Nat) (ps : List (Nat × Nat)) : Except String BNode :=
  ps.foldlM (fun t p => insert 100 order t p.1 p.2) emptyTree

/-- `BPlusTree._find_leaf`, fuel-bounded. Like `_insert_non_full`, the
descent comparison `key > node.keys[i]` on a non-leaf node with non-empty
`keys` compares an int against a stored tuple and raises `TypeError`. -/
def findLeaf : Nat → BNode → Nat → Except String BNode
  | 0, _, _ => .error "fuel exhausted"
  | _ + 1, .node true keys ch nxt, _ => .ok (.node true keys ch nxt)
  | fuel + 1, .node false keys ch _, k =>
      match keys with
      | _ :: _ => .error "TypeError"
      | [] =>
        match ch with
        | [] => .error "IndexError"
        | child :: _ => findLeaf fuel child k

/-- The inner `for key, value in leaf.keys` loop of `range_query`:
`Sum.inl` is the early `return result` on the first key above `end_key`,
`Sum.inr` continues to the next leaf with the accumulated result. -/
def scanKeys : List (Nat × Nat) → Nat → Nat → List (Nat × Nat) →
    List (Nat × Nat) ⊕ List (Nat × Nat)
  | [], _, _, acc => .inr acc
  | (k, v) :: rest, lo, hi, acc =>
      if lo ≤ k ∧ k ≤ hi then scanKeys rest lo hi (acc ++ [(k, v)])
      else if hi < k then .inl acc
      else scanKeys rest lo hi acc

/-- The `while leaf:` walk of `range_query` over the leaf chain. -/
def walkLeaves : Nat → Option BNode → Nat → Nat → List (Nat × Nat) →
    Except String (List (Nat × Nat))
  | 0, _, _, _, _ => .error "fuel exhausted"
  | _ + 1, none, _, _, acc => .ok acc
  | fuel + 1, some (.node _ keys _ nxt), lo, hi, acc =>
      match scanKeys keys lo hi acc with
      | .inl res => .ok res
      | .inr acc' => walkLeaves fuel nxt lo hi acc'

/-- `BPlusTree.range_query(start_key, end_key)`. -/
def rangeQuery (fuel : Nat) (t : BNode) (lo hi : Nat) :
    Except String (List (Nat × Nat)) :=
  match findLeaf fuel t lo with
  | .error e => .error e
  | .ok leaf => walkLeaves fuel (some leaf) lo hi []

end Doxstorr.BPlusTree

namespace Doxstorr.BlockPointerTable

/-- State of `src/block_pointer_table.py`'s `BlockPointerTable`: parallel
lists of direct pointer lists and indirect child-id lists, plus the
`asyncio.Lock`. The lock is non-reentrant; a coroutine that awaits it
while already holding it never resumes, which the embedding surfaces as
the error value `"deadlock"`. -/
structure BPT where
  entries : List (List (Nat × Nat))
  indirect : List (List Nat)
  locked : Bool
  deriving DecidableEq

/-- `BlockPointerTable.create_entry`: acquire the lock, append an empty
direct list and an empty indirect list, return the new id. -/
def createEntry (t : BPT) : Except String (BPT × Nat) :=
  if t.locked then .error "deadlock"
  else
    .ok ({ entries := t.entries ++ [[]],
           indirect := t.indirect ++ [[]],
           locked := false },
         t.entries.length)

/-- `BlockPointerTable.add_pointer`: under the lock, append to the direct
list while it holds fewer than 16 pointers; otherwise grow or reuse the
last indirect child. Both overflow branches call `create_entry` while the
lock is still held, so they await the already-held non-reentrant lock. -/
def addPointer (t : BPT) (entryId blockStoreId recordLocation : Nat) :
    Except String BPT :=
  if t.locked then .error "deadlock"
  else
    let tl : BPT := { t with locked := true }
    if tl.entries.length ≤ entryId then .error "ValueError"
    else
      let entry := tl.entries.getD entryId []
      if entry.length < 16 then
        .ok { tl with
              entries := tl.entries.set entryId
                (entry ++ [(blockStoreId, recordLocation)])
              locked := false }
      else
        let ind := tl.indirect.getD entryId []
        match ind with
        | [] =>
          match createEntry tl with
          | .error e => .error e
          | .ok (t', newId) =>
            let ind' := [newId]
            let last := t'.entries.getD newId []
            .ok { t' with
                  indirect := t'.indirect.set entryId ind'
                  entries := t'.entries.set newId
                    (last ++ [(blockStoreId, recordLocation)])
                  locked := false }
        | _ :: _ =>
          let lastId := ind.getLastD 0
          let lastE := tl.entries.getD lastId []
          if lastE.length = 16 then
            match createEntry tl with
            | .error e => .error e
            | .ok (t', newId) =>
              .ok { t' with
                    indirect := t'.indirect.set entryId (ind ++ [newId])
                    entries := t'.entries.set newId
                      [(blockStoreId, recordLocation)]
                    locked := false }
          else
            .ok { tl with
                  entries := tl.entries.set lastId
                    (lastE ++ [(blockStoreId, recordLocation)])
                  locked := false }

/-- `BlockPointerTable.get_pointers`: the direct list followed, in order,
by the direct lists of the indirect children. -/
def getPointers (t : BPT) (entryId : Nat) : Except String (List (Nat × Nat)) :=
  if t.locked then .error "deadlock"
  else if t.entries.length ≤ entryId then .error "ValueError"
  else
    .ok ((t.indirect.getD entryId []).foldl
      (fun acc i => acc ++ t.entries.getD i []) (t.entries.getD entryId []))

/-- A fresh, unlocked table. -/
def emptyBPT : BPT := ⟨[], [], false⟩

/-- Add a list of pointers to one entry in order, propagating errors. -/
def addAll (t : BPT) (entryId : Nat) (ps : List (Nat × Nat)) :
    Except String BPT :=
  ps.foldlM (fun acc p => addPointer acc entryId p.1 p.2) t

end Doxstorr.BlockPointerTable

namespace Doxstorr

/-- Pointwise update of an `id -> document` state. -/
def setDoc (st : Nat → Option Doc) (i : Nat) (v : Option Doc) :
    Nat → Option Doc :=
  fun j => if j = i then v else st j

end Doxstorr

namespace Doxstorr.JSONFilestore

open Doxstorr

/-- One iteration of the background `process_compression_queue` worker
(`src/json_filestore.py`, lines 139–151), which runs between public
operations at suspension points: pop the oldest queued `(doc_id,
document)`, compress the `data` field and set `compressed=True`, then
unconditionally execute `self.data[doc_id] = document` — even when the
document was deleted after being queued. Compression itself (`zlib` over
`json.dumps` of the field) is value-opaque to every property stated here
and is modelled as the identity on the stored value, recorded by the
`compressed` flag. A document without a `data` field raises `KeyError`,
which the worker only logs, re-inserting nothing; on an empty queue
`await get()` suspends and the state is unchanged. -/
def workerStep (fs : FS) : FS :=
  match fs.compQueue with
  | [] => fs
  | (docId, document) :: rest =>
    match getField document "data" with
    | none => { fs with compQueue := rest }
    | some v =>
      let doc' := setField (setField document "data" v)
        "compressed" (.vBool true)
      { fs with data := dset fs.data docId doc', compQueue := rest }

/-- One transition of the document store: a public operation tagged with
the clock value it runs at, or one iteration of the background
compression worker at a suspension point between operations. -/
inductive FOp where
  | createOp (d : Doc)
  | createWithOp (i : Nat) (d : Doc)
  | updateOp (i : Nat) (u : Doc)
  | deleteOp (i : Nat)
  | readOp (i : Nat)
  | workerOp

/-- Run one transition for its state effect. -/
def step (fs : FS) (now : Nat) (op : FOp) : FS :=
  match op with
  | .createOp d => (create fs d now).2
  | .createWithOp j d => (createWithId fs j d now).2
  | .updateOp j u => (update fs j u now).2
  | .deleteOp j => (delete fs j).2
  | .readOp j => (read fs j).2
  | .workerOp => workerStep fs

/-- Run a list of `(clock, transition)` pairs. -/
def runTrace : FS → List (Nat × FOp) → FS
  | fs, [] => fs
  | fs, (now, op) :: rest => runTrace (step fs now op) rest

/-- Id `i` is nowhere in the store: neither in the document map nor in
the LRU cache. -/
def notStored (fs : FS) (i : Nat) : Prop :=
  dlookup fs.data i = none ∧ LRUCache.lookup fs.cache.items i = none

end Doxstorr.JSONFilestore

namespace Doxstorr.TransactionManager

open Doxstorr

/-- Python exception classes reaching a `run_transaction` caller
(`src/filestore_exceptions.py`; note `DeadlockDetectedError` and
`TransactionAbortedError` are subclasses of `TransactionException`, and
all are caught by `except Exception`). The constructors stand for the
dynamic class of the raised object. -/
inductive PyExc where
  | transactionException
  | transactionAborted
  | deadlockDetected
  deriving DecidableEq

/-- A transaction as `run_transaction` sees it after its growing phase:
its id, the registered rollback actions (each restores one document id to
a recorded prior value; `Transaction.rollback` runs them in reverse and
only logs their failures) and the locks acquired by `add_operation`. -/
structure Txn where
  tid : Nat
  undos : List (Nat × Option Doc)
  locks : List Nat

/-- The world a transaction acts on: document state, the set of held
locks, and the manager's registered transaction ids. -/
structure World where
  st : Nat → Option Doc
  held : List Nat
  txns : List Nat

/-- `Transaction.rollback`: run the rollback operations in reverse. -/
def rollback (w : World) (t : Txn) : World :=
  { w with
    st := (t.undos.reverse).foldl (fun s p => setDoc s p.1 p.2) w.st }

/-- `Transaction.release_locks`. -/
def releaseLocks (w : World) (t : Txn) : World :=
  { w with held := w.held.filter (fun l => l ∉ t.locks) }

/-- `TransactionManager._rollback_transaction`: roll back, release locks,
drop the transaction from the manager's table. -/
def rollbackTransaction (w : World) (t : Txn) : World :=
  let w₁ := releaseLocks (rollback w t) t
  { w₁ with txns := w₁.txns.filter (fun j => j ≠ t.tid) }

/-- `TransactionManager._handle_deadlock`: inside one `try`, it rolls the
transaction back and then raises `DeadlockDetectedError` — but that raise
sits inside the same `try`, so the handler's own
`except Exception as e: raise TransactionException(...)` catches it and
re-raises a plain `TransactionException` wrapping the message. -/
def handleDeadlock (w : World) (t : Txn) : World × PyExc :=
  (rollbackTransaction w t, .transactionException)

/-- The `except asyncio.TimeoutError` branch of
`TransactionManager.run_transaction`: the timeout fires, the handler runs,
and the exception the handler raises propagates to the caller (an
exception raised inside one `except` clause is not caught by a sibling
clause of the same `try`). -/
def runTransactionTimedOut (w : World) (t : Txn) : World × PyExc :=
  handleDeadlock w t

end Doxstorr.TransactionManager

namespace Doxstorr.Atomic

open Doxstorr

/-- One operation handed to `atomic_transaction_execute`
(`src/transaction_types.py`: ADD / UPDATE / DELETE). -/
inductive TOp where
  | add (collectionId : Nat) (data : Doc)
  | upd (docId : Nat) (data : Doc)
  | del (docId : Nat)

/-- The apply action a registered operation performs when the
transaction executes. -/
inductive Act where
  | create (collectionId : Nat) (data : Doc)
  | update (data : Doc)
  | delete

/-- One registered `(apply, undo, lock)` triple, Modelled from the spec:
`EnhancedFilestore._add_document`, `_update_document` and
`_delete_document` are absent from `src/enhanced_filestore.py` (the file
holds only placeholder comments for them), so the operations they append
to a transaction are modelled from spec §4.10 step 6 and §4.8: each apply
mutates exactly its target document, and each undo restores the target to
the value it had when the operation was registered (the build loop of
`atomic_transaction_execute` runs before `run_transaction`, so that value
is the pre-transaction value). -/
structure Reg where
  target : Nat
  act : Act
  prev : Option Doc

/-- Field stamping of a created metadata document (`collection_id` from
the caller, `id`/`created_at`/`updated_at` from
`JSONFilestore._create_with_id`). -/
def stampCreate (d : Doc) (i c now : Nat) : Doc :=
  setField (setField (setField (setField d "collection_id" (.vInt c))
    "id" (.vInt i)) "created_at" (.vInt now)) "updated_at" (.vInt now)

/-- The build (growing) phase of `atomic_transaction_execute`: walk the
operation list, allocating fresh document ids for ADDs and snapshotting
each target's current value for the undo. No apply runs here. -/
def build : (Nat → Option Doc) → Nat → List TOp → List Reg
  | _, _, [] => []
  | st, nid, .add c d :: rest =>
      ⟨nid, .create c d, st nid⟩ :: build st (nid + 1) rest
  | st, nid, .upd i d :: rest => ⟨i, .update d, st i⟩ :: build st nid rest
  | st, nid, .del i :: rest => ⟨i, .delete, st i⟩ :: build st nid rest

/-- Apply one registered operation: `none` is the raised exception
(already-exists for a create collision, not-found for a missing update or
delete target), which aborts the transaction. -/
def applyReg (now : Nat) (st : Nat → Option Doc) (r : Reg) :
    Option (Nat → Option Doc) :=
  match r.act with
  | .create c d =>
    match st r.target with
    | some _ => none
    | none => some (setDoc st r.target (some (stampCreate d r.target c now)))
  | .update d =>
    match st r.target with
    | none => none
    | some old =>
        some (setDoc st r.target
          (some (setField (dictUpdate old d) "updated_at" (.vInt now))))
  | .delete =>
    match st r.target with
    | none => none
    | some _ => some (setDoc st r.target none)

/-- `Transaction.execute`: run the applies in order; `Sum.inl` is the
committed final state, `Sum.inr` the state at the first failure. -/
def execRegs (now : Nat) : (Nat → Option Doc) → List Reg →
    (Nat → Option Doc) ⊕ (Nat → Option Doc)
  | st, [] => .inl st
  | st, r :: rs =>
    match applyReg now st r with
    | some st' => execRegs now st' rs
    | none => .inr st

/-- `Transaction.rollback` as `_run_transaction` invokes it on failure:
every registered undo runs, in reverse registration order, restoring its
target to the snapshot; failures of individual undos are logged, not
raised (here restores are total). -/
def rollbackAll (regs : List Reg) (st : Nat → Option Doc) :
    Nat → Option Doc :=
  (regs.reverse).foldl (fun s r => setDoc s r.target r.prev) st

/-- `atomic_transaction_execute` followed by
`TransactionManager.run_transaction`: build, execute, and on failure roll
back; the boolean records whether the transaction aborted. -/
def runTxn (now : Nat) (st : Nat → Option Doc) (nid : Nat)
    (ops : List TOp) : (Nat → Option Doc) × Bool :=
  match execRegs now st (build st nid ops) with
  | .inl st' => (st', false)
  | .inr sf => (rollbackAll (build st nid ops) sf, true)

/-- The document ids a registered operation list touches. -/
def touches (regs : List Reg) (i : Nat) : Bool :=
  regs.any (fun r => r.target = i)

end Doxstorr.Atomic

namespace Doxstorr.IndexManager

open Doxstorr

/-- ASCII lowercasing, the effective behaviour of `text.lower()` on the
inputs considered. -/
def lowerChar (c : Char) : Char :=
  if 'A' ≤ c ∧ c ≤ 'Z' then Char.ofNat (c.toNat + 32) else c

/-- Membership in the regex class `\w` (ASCII range). -/
def isWordChar (c : Char) : Bool :=
  ('a' ≤ c && c ≤ 'z') || ('A' ≤ c && c ≤ 'Z') ||
  ('0' ≤ c && c ≤ '9') || c = '_'

/-- Maximal-run scanner behind `re.findall(r'\w+', text)`: `acc` holds
the current word's characters in reverse. -/
def tokensAux : List Char → List Char → List String
  | [], [] => []
  | [], acc => [String.mk acc.reverse]
  | c :: cs, acc =>
    if isWordChar c then tokensAux cs (c :: acc)
    else
      match acc with
      | [] => tokensAux cs []
      | _ :: _ => String.mk acc.reverse :: tokensAux cs []

/-- `IndexManager._tokenize`: lowercase, then all `\w+` runs. -/
def tokenize (s : String) : List String :=
  tokensAux (s.data.map lowerChar) []

/-- Polymorphic first-match lookup for string-keyed dicts. -/
def slookup {α : Type} : List (String × α) → String → Option α
  | [], _ => none
  | (k', v) :: rest, k => if k' = k then some v else slookup rest k

/-- A text index: token -> posting list of document ids. -/
abbrev TextIndex := List (String × List Nat)

/-- `self.text_indexes[name].get(word, [])`. -/
def postings (idx : TextIndex) (w : String) : List Nat :=
  (slookup idx w).getD []

/-- Error classes surfacing from the index manager. -/
inductive IErr where
  | configuration
  | indexNotFound
  | query
  | concurrency
  deriving DecidableEq

/-- `IndexManager.text_search`: tokenize the query and intersect the
posting lists. The list comprehension building `results` is what indexes
`self.text_indexes[index_name]`, so with zero tokens no `KeyError` can
fire and the guarded `set.intersection(*results) if results else set()`
yields the empty set; the returned `list(set(...))` is modelled as the
`Finset` it enumerates (Python set order is unspecified, and a set has no
duplicates). -/
def textSearch (enableTextSearch : Bool)
    (textIndexes : List (String × TextIndex)) (name query : String) :
    Except IErr (Finset Nat) :=
  if !enableTextSearch then .error .configuration
  else
    match tokenize query with
    | [] => .ok ∅
    | w :: ws =>
      match slookup textIndexes name with
      | none => .error .indexNotFound
      | some idx =>
        .ok (ws.foldl (fun acc w' => acc ∩ (postings idx w').toFinset)
          (postings idx w).toFinset)

/-- Outcome of one insert/delete request routed through
`_insert_or_queue` / `_delete_or_queue`. -/
inductive ReqOutcome where
  | queued (items : List (Nat × Nat))
  | appliedSync
  | suspends
  | concurrencyError
  deriving DecidableEq

/-- Whether `await asyncio.Queue.put` suspends: it does exactly when the
queue is bounded and currently full. `Queue.put` never raises
`asyncio.QueueFull` — only `put_nowait` does — so a full queue makes the
coroutine wait for the consumer instead of raising. -/
def queuePutSuspends (maxsize len : Nat) : Bool :=
  0 < maxsize && maxsize ≤ len

/-- `IndexManager._insert_or_queue` (and `_delete_or_queue`, which is
identical in structure): with async updates enabled, `await put` the
request; the `except asyncio.QueueFull: raise ConcurrencyException`
branch (`ReqOutcome.concurrencyError`) is unreachable because `put` never
raises `QueueFull`. -/
def insertOrQueue (enableAsyncUpdates : Bool) (maxsize : Nat)
    (items : List (Nat × Nat)) (req : Nat × Nat) : ReqOutcome :=
  if enableAsyncUpdates then
    if queuePutSuspends maxsize items.length then .suspends
    else .queued (items ++ [req])
  else .appliedSync

end Doxstorr.IndexManager

namespace Doxstorr.EnhancedFilestore

open Doxstorr

/-- Bytes are modelled as their numeric values. -/
abbrev Byte := Nat

/-- UTF-8 bytes of a JSON string literal; the documents exercised below
use only escape-free ASCII names and values, on which `json.dumps` emits
exactly a double quote, the characters, and a closing double quote. -/
def encString (s : String) : List Byte :=
  34 :: s.data.map Char.toNat ++ [34]

/-- Bytes `json.dumps` emits for one scalar value. -/
def encVal : Val → List Byte
  | .vStr s => encString s
  | .vInt n => (toString n).data.map Char.toNat
  | .vBool true => [116, 114, 117, 101]
  | .vBool false => [102, 97, 108, 115, 101]

/-- Bytes of the comma-separated `"key": value` body of a JSON object
(`json.dumps` default separators: `", "` and `": "`). -/
def encPairs : Doc → List Byte
  | [] => []
  | [(k, v)] => encString k ++ [58, 32] ++ encVal v
  | (k, v) :: rest => encString k ++ [58, 32] ++ encVal v ++ [44, 32] ++ encPairs rest

/-- `json.dumps(document).encode('utf-8')` on the embedded fragment. -/
def encDoc (d : Doc) : List Byte :=
  123 :: encPairs d ++ [125]

/-- JSON whitespace (space, tab, LF, CR). A NUL byte is not JSON
whitespace, which is what makes `json.loads` reject padded payloads. -/
def isWs (b : Byte) : Bool :=
  b = 32 || b = 9 || b = 10 || b = 13

/-- Skip leading JSON whitespace. -/
def skipWs : List Byte → List Byte
  | [] => []
  | b :: rest => if isWs b then skipWs rest else b :: rest

/-- Parse the remainder of a string literal after the opening quote;
escape sequences and control characters are outside the fragment and
fail the parse, as the exercised payloads never contain them. -/
def parseStringBody : List Byte → List Char → Option (String × List Byte)
  | [], _ => none
  | b :: rest, acc =>
    if b = 34 then some (String.mk acc.reverse, rest)
    else if b = 92 ∨ b < 32 then none
    else parseStringBody rest (Char.ofNat b :: acc)

/-- Parse a string literal. -/
def parseString : List Byte → Option (String × List Byte)
  | 34 :: rest => parseStringBody rest []
  | _ => none

/-- Decimal digit test on a byte. -/
def isDigitB (b : Byte) : Bool := 48 ≤ b && b ≤ 57

/-- Parse an unsigned decimal integer. -/
def parseNatB (bs : List Byte) : Option (Nat × List Byte) :=
  let digits := bs.takeWhile isDigitB
  if digits = [] then none
  else some (digits.foldl (fun acc d => acc * 10 + (d - 48)) 0,
             bs.dropWhile isDigitB)

/-- Parse one JSON scalar of the embedded fragment. -/
def parseVal (bs : List Byte) : Option (Val × List Byte) :=
  match bs with
  | 34 :: _ =>
    match parseString bs with
    | some (s, rest) => some (.vStr s, rest)
    | none => none
  | 116 :: 114 :: 117 :: 101 :: rest => some (.vBool true, rest)
  | 102 :: 97 :: 108 :: 115 :: 101 :: rest => some (.vBool false, rest)
  | 45 :: rest =>
    match parseNatB rest with
    | some (n, rest') => some (.vInt (-(n : Int)), rest')
    | none => none
  | _ =>
    match parseNatB bs with
    | some (n, rest) => some (.vInt (n : Int), rest)
    | none => none

/-- Parse the `"key": value (, "key": value)*` body of an object and its
closing brace; `fuel` bounds the number of pairs (the recursion is spelt
with `Nat.rec` so that a lazily built fuel value is never forced). -/
def parsePairs (fuel : Nat) : List Byte → Doc → Option (Doc × List Byte) :=
  Nat.rec (motive := fun _ => List Byte → Doc → Option (Doc × List Byte))
    (fun _ _ => none)
    (fun _ ih bs acc =>
      match parseString (skipWs bs) with
      | none => none
      | some (k, rest) =>
        match skipWs rest with
        | 58 :: rest' =>
          match parseVal (skipWs rest') with
          | none => none
          | some (v, rest'') =>
            match skipWs rest'' with
            | 44 :: rest''' => ih rest''' (acc ++ [(k, v)])
            | 125 :: rest''' => some (acc ++ [(k, v)], rest''')
            | _ => none
        | _ => none)
    fuel

/-- Parse one JSON object of the embedded fragment. The literal fuel
4096 bounds the number of pairs; each pair consumes at least four bytes,
so it never binds for inputs of one block-size, the only ones decoded
below. -/
def parseDoc (bs : List Byte) : Option (Doc × List Byte) :=
  match skipWs bs with
  | 123 :: rest =>
    match skipWs rest with
    | 125 :: rest' => some ([], rest')
    | _ => parsePairs 4096 rest []
  | _ => none

/-- `json.loads(data.decode('utf-8'))` on the embedded fragment: parse
one top-level object; anything but whitespace after it raises
`JSONDecodeError` (Python's *Extra data*), as does any malformed input. -/
def jsonLoads (bs : List Byte) : Except Unit Doc :=
  match parseDoc bs with
  | none => .error ()
  | some (d, rest) =>
    if skipWs rest = [] then .ok d else .error ()

/-- State of one `src/block_store.py` store: the backing file kept as
whole blocks (slot N occupies bytes `[N*S, (N+1)*S)`; every write pads to
exactly one block, so the file is always a whole number of blocks) plus
the in-memory free list. -/
structure BlockStore where
  blockSize : Nat
  blocks : List (List Byte)
  freeBlocks : List Nat
  deriving DecidableEq

/-- `BlockStore._allocate_block_sync`: pop the free list if non-empty,
else extend the file by one zero block at the tail and return its slot
(`f.tell() // block_size` at end of file). -/
def allocateBlock (s : BlockStore) : Nat × BlockStore :=
  match s.freeBlocks.getLast? with
  | some b => (b, { s with freeBlocks := s.freeBlocks.dropLast })
  | none =>
    (s.blocks.length,
     { s with blocks := s.blocks ++ [List.replicate s.blockSize 0] })

/-- `bytes.ljust(block_size, b'\0')`. -/
def ljust (data : List Byte) (n : Nat) : List Byte :=
  data ++ List.replicate (n - data.length) 0

/-- `BlockStore._write_block_sync`: seek to the slot and write the data
right-padded with zero bytes to the block size. -/
def writeBlock (s : BlockStore) (i : Nat) (data : List Byte) : BlockStore :=
  { s with blocks := s.blocks.set i (ljust data s.blockSize) }

/-- `BlockStore._read_block_sync`: return exactly one block. -/
def readBlock (s : BlockStore) (i : Nat) : List Byte :=
  s.blocks.getD i []

/-- `range(0, len(data), block_size)` chunking of `_write_to_blocks`. -/
def chunkAux : Nat → Nat → List Byte → List (List Byte)
  | 0, _, _ => []
  | _, _, [] => []
  | fuel + 1, bs, data => data.take bs :: chunkAux fuel bs (data.drop bs)

/-- Split a payload into block-sized chunks. -/
def chunkBytes (bs : Nat) (data : List Byte) : List (List Byte) :=
  chunkAux data.length bs data

/-- State of the facade, restricted to the components `add_document` /
`get_document` touch for payloads in the small size class (the medium and
large stores differ only in block size and stay untouched below). -/
structure EFS where
  documentStore : JSONFilestore.FS
  smallStore : BlockStore
  bpt : BlockPointerTable.BPT

/-- Modelled from the spec: `EnhancedFilestore._add_document` is absent
from `src/enhanced_filestore.py` (the file carries only the placeholder
comment `# ... (other methods with similar error handling)` where it
would be), so the write path follows spec §4.10 steps 3–5: serialize the
payload, pick the small size class for payloads ≤ 4 KiB, allocate and
write one slot per chunk through the `src/block_store.py` embedding,
record the slots in a fresh pointer-table entry in order, then insert the
metadata record (`collection_id`, `block_pointer`, `size`) through
`JSONFilestore.create`, which assigns the document id and stamps the
timestamps. Secondary index maintenance (step 5's tail) touches no state
read back by `get_document` and is omitted. -/
def addDocument (efs : EFS) (collectionId : Nat) (data : Doc) (now : Nat) :
    Except JSONFilestore.Err (Nat × EFS) :=
  let payload := encDoc data
  if payload.length ≤ 4 * 1024 then
    let chunks := chunkBytes efs.smallStore.blockSize payload
    let (slots, store') := chunks.foldl
      (fun (acc : List Nat × BlockStore) chunk =>
        let (b, s₁) := allocateBlock acc.2
        (acc.1 ++ [b], writeBlock s₁ b chunk)) ([], efs.smallStore)
    match BlockPointerTable.createEntry efs.bpt with
    | .error _ => .error .storage
    | .ok (bpt₁, entryId) =>
      match BlockPointerTable.addAll bpt₁ entryId
          (slots.map (fun s => (0, s))) with
      | .error _ => .error .storage
      | .ok bpt₂ =>
        let meta : Doc :=
          [("collection_id", .vInt collectionId),
           ("block_pointer", .vInt entryId),
           ("size", .vInt payload.length)]
        let (docId, ds') := JSONFilestore.create efs.documentStore meta now
        .ok (docId, ⟨ds', store', bpt₂⟩)
  else .error .storage

/-- `EnhancedFilestore.get_document` (`src/enhanced_filestore.py`, lines
74–93): read the metadata record, select the block store from its
`size`, fetch the pointer list, concatenate `read_block` of every pointer
— each read returning a full zero-padded block — and `json.loads` the
concatenation; a `json.JSONDecodeError` becomes the *storage* error
`"Corrupted data"`. -/
def getDocument (efs : EFS) (docId : Nat) : Except JSONFilestore.Err Doc × EFS :=
  match JSONFilestore.read efs.documentStore docId with
  | (.error e, ds') => (.error e, { efs with documentStore := ds' })
  | (.ok meta, ds') =>
    let efs' : EFS := { efs with documentStore := ds' }
    match getField meta "size", getField meta "block_pointer" with
    | some (.vInt sz), some (.vInt bp) =>
      if sz ≤ 4 * 1024 then
        match BlockPointerTable.getPointers efs'.bpt bp.toNat with
        | .error _ => (.error .storage, efs')
        | .ok pointers =>
          let bytes := pointers.foldl
            (fun acc p => acc ++ readBlock efs'.smallStore p.2) []
          match jsonLoads bytes with
          | .ok d => (.ok d, efs')
          | .error _ => (.error .storage, efs')
      else (.error .storage, efs')
    | _, _ => (.error .storage, efs')

/-- `get_document(add_document(c, d))`: the round trip claim P1 is about. -/
def addThenGet (efs : EFS) (collectionId : Nat) (data : Doc) (now : Nat) :
    Except JSONFilestore.Err (Except JSONFilestore.Err Doc) :=
  match addDocument efs collectionId data now with
  | .error e => .error e
  | .ok (docId, efs₁) => .ok (getDocument efs₁ docId).1

/-- A fresh facade state. -/
def emptyEFS : EFS :=
  ⟨⟨[], ⟨1000, []⟩, 1, []⟩, ⟨4096, [], []⟩, ⟨[], [], false⟩⟩

end Doxstorr.EnhancedFilestore

namespace Doxstorr.JSONFilestore

open Doxstorr

/-- Claim P2's strict `updated_at` increase across one `update` call, as
the code computes it: compare the stored stamp before and after. -/
def updatedAtIncreased (fs : FS) (docId : Nat) (updates : Doc) (now : Nat) :
    Bool :=
  match dlookup fs.data docId,
        dlookup (update fs docId updates now).2.data docId with
  | some oldDoc, some newDoc =>
    match getField oldDoc "updated_at", getField newDoc "updated_at" with
    | some (.vInt t₀), some (.vInt t₁) => t₀ < t₁
    | _, _ => false
  | _, _ => false

/-- Fixture: a document created (and last updated) at clock second 100. -/
def c5doc : Doc :=
  [("id", .vInt 1), ("created_at", .vInt 100), ("updated_at", .vInt 100),
   ("x", .vInt 5)]

/-- Fixture: a store holding `c5doc` under id 1 (also cached). -/
def c5fs : FS := ⟨[(1, c5doc)], ⟨100, [(1, c5doc)]⟩, 2, []⟩

/-- Fixture: a document with a `data` field and enough filler fields
that its stamped form serializes past the 4 KiB compression threshold
(`docSize` 4607), so creating it enqueues it for the worker. -/
def c6bigdoc : Doc :=
  ("data", .vStr "payload") ::
    (List.range 220).map (fun n => (toString n, Val.vInt 0))

/-- Fixture: an empty store with cache capacity 100 and `next_id` 1. -/
def c6fs0 : FS := ⟨[], ⟨100, []⟩, 1, []⟩

/-- Fixture: the store after creating `c6bigdoc` at clock second 100 —
document 1 is stored, cached, and pending on the compression queue. -/
def c6fs1 : FS := (create c6fs0 c6bigdoc 100).2

/-- Fixture: the update dict of the P2 witness. -/
def c5u : Doc := [("y", .vInt 7)]

/-- Fixture: the document stored after updating `c5doc` with `c5u` at
clock second 101. -/
def c5newdoc : Doc := setField (dictUpdate c5doc c5u) "updated_at" (.vInt 101)

end Doxstorr.JSONFilestore

namespace Doxstorr.TransactionManager

open Doxstorr

/-- Fixture: the world of a timed-out transaction — document 2 currently
holds the transaction's tentative write, lock 7 is held, transaction 1 is
registered. -/
def c7World : World :=
  ⟨fun j => if j = 2 then some [("x", Val.vInt 1)] else none, [7], [1]⟩

/-- Fixture: the timed-out transaction — one registered undo restoring
document 2 to its pre-transaction value, one held lock. -/
def c7Txn : Txn := ⟨1, [(2, some [("x", Val.vInt 0)])], [7]⟩

end Doxstorr.TransactionManager

/-!
Theorems. Helper lemmas come first, then one theorem per claim (with its
witness or counterexample where required).
-/

namespace Doxstorr

theorem setDoc_same (st : Nat → Option Doc) (i : Nat) (v : Option Doc) :
    setDoc st i v i = v := by
  simp [setDoc]

theorem setDoc_other (st : Nat → Option Doc) (i : Nat) (v : Option Doc)
    (j : Nat) (h : j ≠ i) : setDoc st i v j = st j := by
  simp [setDoc, h]

end Doxstorr

namespace Doxstorr.Atomic

open Doxstorr

theorem build_prev (ops : List TOp) :
    ∀ (st : Nat → Option Doc) (nid : Nat), ∀ r ∈ build st nid ops,
      r.prev = st r.target := by
  induction ops with
  | nil => intro st nid r hr; simp [build] at hr
  | cons op rest ih =>
    intro st nid r hr
    cases op with
    | add c d =>
      simp only [build, List.mem_cons] at hr
      rcases hr with rfl | hr
      · rfl
      · exact ih st (nid + 1) r hr
    | upd i d =>
      simp only [build, List.mem_cons] at hr
      rcases hr with rfl | hr
      · rfl
      · exact ih st nid r hr
    | del i =>
      simp only [build, List.mem_cons] at hr
      rcases hr with rfl | hr
      · rfl
      · exact ih st nid r hr

theorem applyReg_frame (now : Nat) (st st' : Nat → Option Doc) (r : Reg)
    (h : applyReg now st r = some st') (j : Nat) (hj : j ≠ r.target) :
    st' j = st j := by
  rcases r with ⟨target, act, prev⟩
  cases act with
  | create c d =>
    cases hst : st target <;> simp [applyReg, hst] at h
    subst h; exact setDoc_other st target _ j hj
  | update d =>
    cases hst : st target <;> simp [applyReg, hst] at h
    subst h; exact setDoc_other st target _ j hj
  | delete =>
    cases hst : st target <;> simp [applyReg, hst] at h
    subst h; exact setDoc_other st target _ j hj

theorem execRegs_frame (now : Nat) :
    ∀ (regs : List Reg) (st sf : Nat → Option Doc),
      execRegs now st regs = .inr sf →
      ∀ j, (∀ r ∈ regs, r.target ≠ j) → sf j = st j := by
  intro regs
  induction regs with
  | nil => intro st sf h _ _; simp [execRegs] at h
  | cons r rs ih =>
    intro st sf h j hj
    rcases happ : applyReg now st r with _ | st'
    · simp [execRegs, happ] at h
      subst h; rfl
    · simp [execRegs, happ] at h
      have hfr := applyReg_frame now st st' r happ j
        (fun he => hj r (List.mem_cons_self r rs) (he ▸ rfl))
      have := ih st' sf h j (fun r' hr' => hj r' (List.mem_cons_of_mem r hr'))
      rw [this, hfr]

theorem rollbackAll_foldr (regs : List Reg) (s : Nat → Option Doc) :
    rollbackAll regs s = regs.foldr (fun r t => setDoc t r.target r.prev) s := by
  simp [rollbackAll, List.foldl_reverse]

theorem rollbackAll_untouched :
    ∀ (regs : List Reg) (s : Nat → Option Doc) (j : Nat),
      touches regs j = false → rollbackAll regs s j = s j := by
  intro regs
  induction regs with
  | nil => intro s j _; simp [rollbackAll_foldr]
  | cons r rs ih =>
    intro s j h
    simp only [touches, List.any_cons, Bool.or_eq_false_iff,
      decide_eq_false_iff_not] at h
    rw [rollbackAll_foldr]
    simp only [List.foldr_cons]
    rw [setDoc_other _ _ _ _ (fun he => h.1 he.symm)]
    have := ih s j (by simp [touches, h.2])
    rw [rollbackAll_foldr] at this
    exact this

theorem rollbackAll_touched (st0 : Nat → Option Doc) :
    ∀ (regs : List Reg) (s : Nat → Option Doc) (j : Nat),
      (∀ r ∈ regs, r.prev = st0 r.target) →
      touches regs j = true → rollbackAll regs s j = st0 j := by
  intro regs
  induction regs with
  | nil => intro s j _ h; simp [touches] at h
  | cons r rs ih =>
    intro s j hprev h
    rw [rollbackAll_foldr]
    simp only [List.foldr_cons]
    by_cases hj : j = r.target
    · rw [hj, setDoc_same, hprev r (List.mem_cons_self r rs)]
    · simp only [touches, List.any_cons, Bool.or_eq_true,
        decide_eq_true_eq] at h
      rcases h with h | h
      · exact absurd h.symm hj
      · rw [setDoc_other _ _ _ _ hj]
        have := ih s j (fun r' hr' => hprev r' (List.mem_cons_of_mem r hr'))
          (by simpa [touches] using h)
        rw [rollbackAll_foldr] at this
        exact this

/-- C1: if `atomic_transaction_execute` aborts, the document state after
rollback agrees with the pre-transaction state at every id (in
particular at every id mentioned by any operation): either all
operations commit or none do. The build helpers are Modelled from the
spec (see `Reg`); the execute/rollback control flow is the embedding of
`src/transaction.py`. -/
theorem atomic_aborted_roundtrip (now : Nat) (st : Nat → Option Doc)
    (nid : Nat) (ops : List TOp)
    (h : (runTxn now st nid ops).2 = true) :
    ∀ i, (runTxn now st nid ops).1 i = st i := by
  intro i
  unfold runTxn at h ⊢
  rcases hE : execRegs now st (build st nid ops) with st' | sf
  · rw [hE] at h; simp at h
  · show rollbackAll (build st nid ops) sf i = st i
    by_cases ht : touches (build st nid ops) i
    · exact rollbackAll_touched st (build st nid ops) sf i
        (build_prev ops st nid) ht
    · rw [rollbackAll_untouched (build st nid ops) sf i
        (Bool.not_eq_true _ ▸ ht)]
      have hall : ∀ r ∈ build st nid ops, r.target ≠ i := by
        intro r hr he
        exact ht (by simp [touches]; exact ⟨r, hr, he⟩)
      exact execRegs_frame now (build st nid ops) st sf hE i hall

/-- Witness for C1: an UPDATE that applies followed by a DELETE of a
missing id aborts the transaction, and document 2 reads back its
pre-transaction value while id 99 stays absent. -/
theorem atomic_aborted_roundtrip_witness :
    (runTxn 0 (fun j => if j = 2 then some [("x", Val.vInt 1)] else none) 100
      [.upd 2 [("x", .vInt 3)], .del 99]).2 = true ∧
    (runTxn 0 (fun j => if j = 2 then some [("x", Val.vInt 1)] else none) 100
      [.upd 2 [("x", .vInt 3)], .del 99]).1 2 = some [("x", Val.vInt 1)] ∧
    (runTxn 0 (fun j => if j = 2 then some [("x", Val.vInt 1)] else none) 100
      [.upd 2 [("x", .vInt 3)], .del 99]).1 99 = none := by
  refine ⟨rfl, ?_, ?_⟩
  · exact atomic_aborted_roundtrip 0
      (fun j => if j = 2 then some [("x", Val.vInt 1)] else none) 100
      [.upd 2 [("x", .vInt 3)], .del 99] rfl 2
  · exact atomic_aborted_roundtrip 0
      (fun j => if j = 2 then some [("x", Val.vInt 1)] else none) 100
      [.upd 2 [("x", .vInt 3)], .del 99] rfl 99

end Doxstorr.Atomic

namespace Doxstorr.BPlusTree

/-- C3: building the tree the claim quantifies over crashes as soon as a
split occurs. At order 2 the fourth insertion of distinct keys (and at
order 3 the sixth, here on the spec's own scenario-3 key sequence) finds
the root full, splits it — promoting the median `(key, value)` pair into
the new root's `keys` — and then `_insert_non_full` evaluates
`key < node.keys[i]`, a Python `int`-versus-`tuple` comparison, which
raises `TypeError`; `range_query` can therefore never see all N pairs for
any N ≥ 2·order. -/
theorem insert_split_raises_typeerror :
    insertAll 2 [(1, 1), (2, 2), (3, 3), (4, 4)] = .error "TypeError" ∧
    insertAll 3
      [(5, 5), (3, 3), (8, 8), (1, 1), (9, 9), (2, 2), (7, 7), (4, 4), (6, 6)]
      = .error "TypeError" :=
  ⟨rfl, rfl⟩

end Doxstorr.BPlusTree

namespace Doxstorr.BlockPointerTable

/-- C4: sixteen `add_pointer` calls on a fresh entry succeed and
`get_pointers` returns them in insertion order, but the seventeenth call
takes the overflow branch, which `await`s `create_entry` while the
table's own non-reentrant `asyncio.Lock` is still held — the call never
completes (modelled as the `"deadlock"` error), so no pointer can ever
reach an indirect child. -/
theorem seventeenth_add_pointer_deadlocks :
    (createEntry emptyBPT >>= fun p =>
        addAll p.1 p.2 ((List.range 16).map (fun n => (0, n))) >>= fun t =>
        getPointers t p.2)
      = .ok ((List.range 16).map (fun n => (0, n))) ∧
    (createEntry emptyBPT >>= fun p =>
        addAll p.1 p.2 ((List.range 17).map (fun n => (0, n))))
      = .error "deadlock" := by
  exact ⟨rfl, rfl⟩

end Doxstorr.BlockPointerTable

namespace Doxstorr.IndexManager

/-- C9: with async updates enabled and the queue at its capacity (the
default 1000), an index update request suspends on `await Queue.put`
until the worker frees space — it does not surface the concurrency
(queue-full) error, because `Queue.put` never raises `asyncio.QueueFull`
and the `except asyncio.QueueFull` handler is unreachable. -/
theorem full_queue_request_suspends :
    insertOrQueue true 1000 (List.replicate 1000 (0, 0)) (1, 1) = .suspends ∧
    insertOrQueue true 1000 (List.replicate 1000 (0, 0)) (1, 1)
      ≠ .concurrencyError := by
  constructor
  · simp [insertOrQueue, queuePutSuspends]
  · simp [insertOrQueue, queuePutSuspends]

end Doxstorr.IndexManager

namespace Doxstorr.TransactionManager

/-- C7: on a timed-out transaction the manager does roll the state back,
release the locks and deregister the transaction — but the caller
receives a plain `TransactionException`, not the `DeadlockDetectedError`
the spec promises, because `_handle_deadlock` raises the deadlock error
inside its own `try` and its `except Exception` clause re-wraps it. -/
theorem timeout_surfaces_transaction_exception :
    (runTransactionTimedOut c7World c7Txn).2 = .transactionException ∧
    (runTransactionTimedOut c7World c7Txn).2 ≠ .deadlockDetected ∧
    (runTransactionTimedOut c7World c7Txn).1.st 2
      = some [("x", Val.vInt 0)] ∧
    (runTransactionTimedOut c7World c7Txn).1.held = [] ∧
    (runTransactionTimedOut c7World c7Txn).1.txns = [] := by
  refine ⟨rfl, by decide, rfl, rfl, rfl⟩

end Doxstorr.TransactionManager

namespace Doxstorr.EnhancedFilestore

/-- C2: `get_document` immediately after `add_document` does not return
the stored payload at all: the payload (13 bytes here) is written into
one zero-padded 4096-byte block, `get_document` concatenates whole
blocks without truncating to the recorded `size`, and `json.loads` on
the padded bytes raises (*Extra data*), surfacing as the *storage* error
`"Corrupted data"`. The second conjunct shows the unpadded payload alone
decodes fine, isolating the padding as the cause. -/
theorem get_after_add_corrupted :
    addThenGet emptyEFS 1 [("name", .vStr "A")] 100
      = .ok (.error .storage) ∧
    jsonLoads (encDoc [("name", .vStr "A")]) = .ok [("name", .vStr "A")] := by
  exact ⟨rfl, rfl⟩

end Doxstorr.EnhancedFilestore

namespace Doxstorr.IndexManager

/-- C8: for a query that tokenizes to the two tokens `a` and `b` against
an existing text index, `text_search` returns exactly the set of document
ids present in both posting lists (AND semantics); the result is a set,
hence duplicate-free, and a token without a posting list contributes
`∅` through `postings`' empty default. -/
theorem text_search_and_semantics (ti : List (String × TextIndex))
    (name q a b : String) (idx : TextIndex)
    (htok : tokenize q = [a, b]) (hidx : slookup ti name = some idx) :
    ∃ S, textSearch true ti name q = .ok S ∧
      ∀ d, d ∈ S ↔ (d ∈ postings idx a ∧ d ∈ postings idx b) := by
  refine ⟨(postings idx a).toFinset ∩ (postings idx b).toFinset, ?_, ?_⟩
  · simp [textSearch, htok, hidx]
  · intro d
    simp [Finset.mem_inter, List.mem_toFinset]

/-- Witness for C8: the query `"a b"` against the index
`{a ↦ [1,2], b ↦ [2,3]}` returns exactly `{2}` as the membership
equivalence instantiates. -/
theorem text_search_and_semantics_witness :
    tokenize "a b" = ["a", "b"] ∧
    slookup [("t", [("a", [1, 2]), ("b", [2, 3])])] "t"
      = some [("a", [1, 2]), ("b", [2, 3])] ∧
    (∃ S, textSearch true [("t", [("a", [1, 2]), ("b", [2, 3])])] "t" "a b"
        = .ok S ∧
      ∀ d, d ∈ S ↔
        (d ∈ postings [("a", [1, 2]), ("b", [2, 3])] "a" ∧
         d ∈ postings [("a", [1, 2]), ("b", [2, 3])] "b")) := by
  refine ⟨by decide, by decide, ?_⟩
  exact text_search_and_semantics [("t", [("a", [1, 2]), ("b", [2, 3])])]
    "t" "a b" "a" "b" [("a", [1, 2]), ("b", [2, 3])] (by decide) (by decide)

/-- C10: a query whose tokenization is empty (empty string,
punctuation-only text) makes `text_search` return the empty result for
every index mapping — never the set of all indexed ids — because the
posting-list comprehension is empty and the guarded intersection falls
back to `set()`. -/
theorem text_search_empty_query (ti : List (String × TextIndex))
    (name q : String) (h : tokenize q = []) :
    textSearch true ti name q = .ok ∅ := by
  simp [textSearch, h]

/-- Witness for C10: the punctuation-only query `"!!!"` tokenizes to
nothing and returns the empty set on a populated index. -/
theorem text_search_empty_query_witness :
    tokenize "!!!" = [] ∧
    textSearch true [("t", [("a", [1])])] "t" "!!!" = .ok ∅ :=
  ⟨by decide,
   text_search_empty_query [("t", [("a", [1])])] "t" "!!!" (by decide)⟩

end Doxstorr.IndexManager

namespace Doxstorr

theorem getField_setField_same (d : Doc) (k : String) (v : Val) :
    getField (setField d k v) k = some v := by
  induction d with
  | nil => simp [setField, getField]
  | cons p rest ih =>
    rcases p with ⟨k', v'⟩
    by_cases h : k' = k
    · simp [setField, getField, h]
    · simp [setField, getField, h, ih]

theorem getField_setField_other (d : Doc) (k : String) (v : Val)
    (k' : String) (h : k' ≠ k) :
    getField (setField d k v) k' = getField d k' := by
  have hks : k ≠ k' := Ne.symm h
  induction d with
  | nil => simp [setField, getField, hks]
  | cons p rest ih =>
    rcases p with ⟨k₀, v₀⟩
    by_cases h₀ : k₀ = k
    · subst h₀
      simp [setField, getField, hks]
    · simp [setField, getField, h₀, ih]

theorem getField_dictUpdate_not_mem (u : Doc) :
    ∀ (d : Doc) (k : String), k ∉ keysOf u →
      getField (dictUpdate d u) k = getField d k := by
  induction u with
  | nil => intro d k _; rfl
  | cons p rest ih =>
    rcases p with ⟨k₀, v₀⟩
    intro d k hk
    simp only [keysOf, List.map_cons, List.mem_cons] at hk
    push_neg at hk
    have : getField (dictUpdate (setField d k₀ v₀) rest) k
        = getField (setField d k₀ v₀) k := ih (setField d k₀ v₀) k
      (by simpa [keysOf] using hk.2)
    simp only [dictUpdate]
    rw [this, getField_setField_other d k₀ v₀ k hk.1]

theorem getField_dictUpdate_mem (u : Doc) :
    ∀ (d : Doc) (k : String) (v : Val), (keysOf u).Nodup → (k, v) ∈ u →
      getField (dictUpdate d u) k = some v := by
  induction u with
  | nil => intro d k v _ hm; simp at hm
  | cons p rest ih =>
    rcases p with ⟨k₀, v₀⟩
    intro d k v hnd hm
    simp only [keysOf, List.map_cons, List.nodup_cons] at hnd
    rcases List.mem_cons.mp hm with he | hm'
    · rcases Prod.mk.injEq .. ▸ he with ⟨hk, hv⟩
      subst hk; subst hv
      simp only [dictUpdate]
      rw [getField_dictUpdate_not_mem rest (setField d k v) k
        (by simpa [keysOf] using hnd.1)]
      exact getField_setField_same d k v
    · simp only [dictUpdate]
      exact ih (setField d k₀ v₀) k v hnd.2 hm'

end Doxstorr

namespace Doxstorr.JSONFilestore

open Doxstorr

theorem dlookup_dset_same (l : List (Nat × Doc)) (k : Nat) (v : Doc) :
    dlookup (dset l k v) k = some v := by
  induction l with
  | nil => simp [dset, dlookup]
  | cons p rest ih =>
    rcases p with ⟨k', v'⟩
    by_cases h : k' = k
    · simp [dset, dlookup, h]
    · simp [dset, dlookup, h, ih]

/-- C5 counterexample: updating document 1 of `c5fs` within the same
clock second (100) succeeds, but `updated_at` stays at 100 — it does not
strictly increase, because `update` stamps `int(time.time())`, which has
one-second granularity and is not forced past the previous stamp. -/
theorem update_same_second_counterexample :
    (update c5fs 1 c5u 100).1 = .ok true ∧
    getField c5doc "updated_at" = some (.vInt 100) ∧
    updatedAtIncreased c5fs 1 c5u 100 = false := by
  refine ⟨rfl, by decide, by decide⟩

/-- C5 as amended: after a successful `update(id, d')` at clock `now`,
provided `d'` has unique keys and touches neither `created_at` nor
`updated_at`: every field of `d'` overrides, every other field except
`updated_at` is unchanged, `created_at` is unchanged, and `updated_at`
is set to `now` — hence it strictly increases exactly when the clock has
advanced past the previous stamp, and merely fails to decrease when the
update lands in the same second. -/
theorem update_overrides_and_stamps (fs : FS) (docId : Nat) (u : Doc)
    (now : Nat) (doc : Doc)
    (hdoc : dlookup fs.data docId = some doc)
    (hnodup : (keysOf u).Nodup)
    (hc : "created_at" ∉ keysOf u)
    (hu : "updated_at" ∉ keysOf u) :
    (update fs docId u now).1 = .ok true ∧
    dlookup (update fs docId u now).2.data docId
      = some (setField (dictUpdate doc u) "updated_at" (.vInt now)) ∧
    (∀ k v, (k, v) ∈ u →
      getField (setField (dictUpdate doc u) "updated_at" (.vInt now)) k
        = some v) ∧
    (∀ k, k ∉ keysOf u → k ≠ "updated_at" →
      getField (setField (dictUpdate doc u) "updated_at" (.vInt now)) k
        = getField doc k) ∧
    getField (setField (dictUpdate doc u) "updated_at" (.vInt now))
      "created_at" = getField doc "created_at" ∧
    getField (setField (dictUpdate doc u) "updated_at" (.vInt now))
      "updated_at" = some (.vInt now) ∧
    (∀ t₀ : Int, getField doc "updated_at" = some (.vInt t₀) →
      t₀ < (now : Int) →
      ∃ t₁ : Int,
        getField (setField (dictUpdate doc u) "updated_at" (.vInt now))
          "updated_at" = some (.vInt t₁) ∧ t₀ < t₁) := by
  have hframe : ∀ k, k ∉ keysOf u → k ≠ "updated_at" →
      getField (setField (dictUpdate doc u) "updated_at" (.vInt now)) k
        = getField doc k := by
    intro k hk hk'
    rw [getField_setField_other _ _ _ _ hk', getField_dictUpdate_not_mem u doc k hk]
  refine ⟨?_, ?_, ?_, hframe, ?_, ?_, ?_⟩
  · simp [update, hdoc]
  · simp only [update, hdoc]
    exact dlookup_dset_same fs.data docId _
  · intro k v hkv
    have hkk : k ≠ "updated_at" := by
      intro he
      exact hu (he ▸ List.mem_map_of_mem Prod.fst hkv)
    rw [getField_setField_other _ _ _ _ hkk]
    exact getField_dictUpdate_mem u doc k v hnodup hkv
  · exact hframe "created_at" hc (by decide)
  · exact getField_setField_same _ _ _
  · intro t₀ _ hlt
    exact ⟨(now : Int), getField_setField_same _ _ _, hlt⟩

/-- Witness for the amended C5: updating `c5fs`'s document 1 with
`{"y": 7}` at clock second 101 (one past the stored stamp 100). -/
theorem update_overrides_and_stamps_witness :
    dlookup c5fs.data 1 = some c5doc ∧
    (keysOf c5u).Nodup ∧
    "created_at" ∉ keysOf c5u ∧
    "updated_at" ∉ keysOf c5u ∧
    dlookup (update c5fs 1 c5u 101).2.data 1 = some c5newdoc ∧
    getField c5newdoc "updated_at" = some (.vInt 101) := by
  refine ⟨by decide, by decide, by decide, by decide, ?_, ?_⟩
  · exact (update_overrides_and_stamps c5fs 1 c5u 101 c5doc (by decide)
      (by decide) (by decide) (by decide)).2.1
  · exact (update_overrides_and_stamps c5fs 1 c5u 101 c5doc (by decide)
      (by decide) (by decide) (by decide)).2.2.2.2.2.1

end Doxstorr.JSONFilestore

namespace Doxstorr.LRUCache

theorem lookup_eraseKey_self (l : List (Nat × Doxstorr.Doc)) (k : Nat) :
    lookup (eraseKey l k) k = none := by
  induction l with
  | nil => rfl
  | cons p rest ih =>
    rcases p with ⟨k', v⟩
    by_cases h : k' = k
    · simp [eraseKey, h] at ih ⊢
      exact ih
    · simp [eraseKey, h] at ih ⊢
      simp [lookup, h, ih]

theorem lookup_none_eraseKey (l : List (Nat × Doxstorr.Doc)) (i k : Nat)
    (h : lookup l i = none) : lookup (eraseKey l k) i = none := by
  induction l with
  | nil => rfl
  | cons p rest ih =>
    rcases p with ⟨k', v⟩
    by_cases hk : k' = i
    · simp [lookup, hk] at h
    · simp only [lookup, if_neg hk] at h
      by_cases he : k' = k
      · simpa [eraseKey, List.filter_cons, he] using ih h
      · have hrw : eraseKey ((k', v) :: rest) k = (k', v) :: eraseKey rest k := by
          simp [eraseKey, List.filter_cons, he]
        rw [hrw]
        simp only [lookup, if_neg hk]
        exact ih h

theorem lookup_none_append (l₁ l₂ : List (Nat × Doxstorr.Doc)) (i : Nat)
    (h₁ : lookup l₁ i = none) (h₂ : lookup l₂ i = none) :
    lookup (l₁ ++ l₂) i = none := by
  induction l₁ with
  | nil => simpa using h₂
  | cons p rest ih =>
    rcases p with ⟨k', v⟩
    by_cases hk : k' = i
    · simp [lookup, hk] at h₁
    · simp only [lookup, if_neg hk] at h₁
      simp only [List.cons_append, lookup, if_neg hk]
      exact ih h₁

theorem lookup_none_drop (l : List (Nat × Doxstorr.Doc)) (i : Nat)
    (h : lookup l i = none) : lookup (l.drop 1) i = none := by
  cases l with
  | nil => rfl
  | cons p rest =>
    rcases p with ⟨k', v⟩
    by_cases hk : k' = i
    · simp [lookup, hk] at h
    · simp only [lookup, if_neg hk] at h
      simpa using h

theorem lookup_put_none (c : Cache) (k : Nat) (v : Doxstorr.Doc) (i : Nat)
    (hi : lookup c.items i = none) (hik : i ≠ k) :
    lookup (put c k v).items i = none := by
  have hbase : lookup (eraseKey c.items k ++ [(k, v)]) i = none := by
    refine lookup_none_append _ _ i (lookup_none_eraseKey _ i k hi) ?_
    simp [lookup, Ne.symm hik]
  unfold put
  by_cases hlen : c.capacity < (eraseKey c.items k ++ [(k, v)]).length
  · simp only [hlen, if_true]
    exact lookup_none_drop _ i hbase
  · simp only [hlen, if_false]
    exact hbase

theorem lookup_get_none (c : Cache) (k : Nat) (i : Nat)
    (hi : lookup c.items i = none) (hik : i ≠ k) :
    lookup (get c k).2.items i = none := by
  unfold get
  cases hl : lookup c.items k with
  | none => simpa using hi
  | some v =>
    simp only
    refine lookup_none_append _ _ i (lookup_none_eraseKey _ i k hi) ?_
    simp [lookup, Ne.symm hik]

theorem lookup_invalidate_self (c : Cache) (k : Nat) :
    lookup (invalidate c k).items k = none :=
  lookup_eraseKey_self c.items k

end Doxstorr.LRUCache

namespace Doxstorr.JSONFilestore

open Doxstorr

theorem dlookup_none_dset (l : List (Nat × Doc)) (k : Nat) (v : Doc)
    (i : Nat) (h : dlookup l i = none) (hik : i ≠ k) :
    dlookup (dset l k v) i = none := by
  induction l with
  | nil => simp [dset, dlookup, Ne.symm hik]
  | cons p rest ih =>
    rcases p with ⟨k', v'⟩
    by_cases hk : k' = i
    · simp [dlookup, hk] at h
    · simp only [dlookup, if_neg hk] at h
      by_cases he : k' = k
      · simp [dset, he, dlookup, hk]
        simpa [dlookup, he ▸ hk] using h
      · simp only [dset, if_neg he, dlookup, if_neg hk]
        exact ih h

theorem dlookup_derase_self (l : List (Nat × Doc)) (k : Nat) :
    dlookup (derase l k) k = none := by
  induction l with
  | nil => rfl
  | cons p rest ih =>
    rcases p with ⟨k', v⟩
    by_cases h : k' = k
    · simpa [derase, List.filter_cons, h] using ih
    · have hrw : derase ((k', v) :: rest) k = (k', v) :: derase rest k := by
        simp [derase, List.filter_cons, h]
      rw [hrw]
      simp [dlookup, h, ih]

theorem dlookup_none_derase (l : List (Nat × Doc)) (i k : Nat)
    (h : dlookup l i = none) : dlookup (derase l k) i = none := by
  induction l with
  | nil => rfl
  | cons p rest ih =>
    rcases p with ⟨k', v⟩
    by_cases hk : k' = i
    · simp [dlookup, hk] at h
    · simp only [dlookup, if_neg hk] at h
      by_cases he : k' = k
      · simpa [derase, List.filter_cons, he] using ih h
      · have hrw : derase ((k', v) :: rest) k = (k', v) :: derase rest k := by
          simp [derase, List.filter_cons, he]
        rw [hrw]
        simp only [dlookup, if_neg hk]
        exact ih h

theorem delete_notStored (fs : FS) (i : Nat)
    (h : (delete fs i).1 = .ok true) : notStored (delete fs i).2 i := by
  unfold delete at *
  cases hdj : dlookup fs.data i with
  | none => rw [hdj] at h; simp at h
  | some doc =>
    exact ⟨dlookup_derase_self _ i, LRUCache.lookup_eraseKey_self _ i⟩

theorem read_notStored_error (fs : FS) (i : Nat) (h : notStored fs i) :
    (read fs i).1 = .error .documentNotFound := by
  have hget : LRUCache.get fs.cache i = (none, fs.cache) := by
    unfold LRUCache.get; rw [h.2]
  simp only [read, hget, h.1]

/-- C6 refuted: deletion persistence (P3) fails in the source once the
background compression worker runs. Document 1 of `c6fs1` was queued for
compression when created (it serializes past 4 KiB); `delete` succeeds
and — as `delete_notStored` shows — removes it from both the map and the
cache, but it never purges the compression queue, and the worker's next
iteration unconditionally executes `self.data[doc_id] = document`,
re-inserting the deleted document under its old id. The subsequent
`read(1)` therefore returns the resurrected document and re-caches it
instead of raising *not-found*. -/
theorem compression_worker_resurrects_deleted :
    (delete c6fs1 1).1 = .ok true ∧
    (delete c6fs1 1).2.compQueue.length = 1 ∧
    dlookup (delete c6fs1 1).2.data 1 = none ∧
    (dlookup (runTrace c6fs1 [(100, .deleteOp 1), (100, .workerOp)]).data
        1).isSome = true ∧
    (read (runTrace c6fs1 [(100, .deleteOp 1), (100, .workerOp)]) 1).1.isOk
      = true ∧
    (LRUCache.lookup
        (read (runTrace c6fs1 [(100, .deleteOp 1), (100, .workerOp)]) 1).2.cache.items
        1).isSome = true := by
  exact ⟨rfl, rfl, rfl, rfl, rfl, rfl⟩

end Doxstorr.JSONFilestore
